import Mathlib

/-!
# file-monitor: the watch registry, the event loop and the monitor lifecycle

A shallow embedding of `src/file-monitor.c`.

* A C string is the list of its bytes before the terminating NUL, one `Char` per byte;
  `strcmp(a, b) == 0` is equality of these lists.
* The array `directories[0 .. dir_count-1]` is a list, `dir_count` is its length; the slots
  between `dir_count` and `dir_capacity` hold no entry.
* The kernel and the allocator are an explicit environment: every call that asks them
  something receives their answers as an argument, and the requests made to the kernel are
  returned as a log.
-/

namespace FileMonitor

/-- A C string without its terminating NUL. -/
abbrev CStr := List Char

/-! ## Constants of the system headers -/

/-- The value of `PATH_MAX` in `<limits.h>` on Linux. -/
def PATH_MAX : Nat := 4096

/-- The event bits of `<sys/inotify.h>`. -/
def IN_MODIFY : Nat := 0x00000002
def IN_CLOSE_WRITE : Nat := 0x00000008
def IN_MOVED_FROM : Nat := 0x00000040
def IN_MOVED_TO : Nat := 0x00000080
def IN_CREATE : Nat := 0x00000100
def IN_DELETE : Nat := 0x00000200
/-- The kernel sets this bit in an event whose subject is a directory. -/
def IN_ISDIR : Nat := 0x40000000

/-- The constant `WATCH_FLAGS` of line 15. -/
def WATCH_FLAGS : Nat :=
  IN_CLOSE_WRITE ||| IN_MODIFY ||| IN_CREATE ||| IN_DELETE ||| IN_MOVED_FROM ||| IN_MOVED_TO

/-! ## Data model -/

structure monitored_file_t where
  filename : CStr
  full_path : CStr
deriving DecidableEq, Repr

structure directory_watch_t where
  dir_path : CStr
  watch_descriptor : Int
  files : List monitored_file_t
  file_capacity : Nat
deriving DecidableEq, Repr

/-- The number of files of a directory watch (`file_count`). -/
def directory_watch_t.file_count (d : directory_watch_t) : Nat := d.files.length

/-- The callback is a function pointer; it is known by its address. -/
abbrev file_change_callback := Nat

/-- The registry part of `struct file_monitor_t` and the callback. The descriptors, the
thread and the lock are resources, tracked in `file_monitor_new`. -/
structure file_monitor where
  directories : List directory_watch_t
  dir_capacity : Nat
  callback : file_change_callback
deriving DecidableEq, Repr

/-- The field `dir_count`. -/
def file_monitor.dir_count (monitor : file_monitor) : Nat := monitor.directories.length

/-- A request made to the notification subsystem. -/
inductive KCall where
  | add_watch (dir_path : CStr) (flags : Nat)
  | rm_watch (wd : Int)
deriving DecidableEq, Repr

/-- What the environment answers during one `add_directory_watch`. An answer is read only
when the code reaches the call it belongs to. -/
structure AddAnswers where
  /-- `realloc` of the directory array returns a block. -/
  realloc_ok : Bool
  /-- The result of `inotify_add_watch`: `-1` is failure. -/
  wd : Int
  /-- `malloc` of the `directory_watch_t` returns a block. -/
  malloc_dir_watch_ok : Bool
  /-- `strdup` of the path returns a block. -/
  strdup_ok : Bool
  /-- `malloc` of the file array returns a block. -/
  malloc_files_ok : Bool
deriving DecidableEq, Repr

/-! ## The watch registry -/

/-- The loop of `find_directory_watch` over the entries not yet visited. -/
def find_directory_watch_from (dirs : List directory_watch_t) (dir_path : CStr) :
    Option directory_watch_t :=
  match dirs with
  | [] => none
  | d :: rest =>
    if d.dir_path = dir_path then some d else find_directory_watch_from rest dir_path

def find_directory_watch (monitor : file_monitor) (dir_path : CStr) :
    Option directory_watch_t :=
  find_directory_watch_from monitor.directories dir_path

/-- Returns the new watch (or `none` for `NULL`), the monitor afterwards and the requests
made to the kernel. The `int` fields `dir_count` and `dir_capacity` are natural numbers
here: the capacity doubles from 10, and `dir_capacity * 2` would leave the range of `int`
only with more than `2 ^ 30` entries. -/
def add_directory_watch (monitor : file_monitor) (dir_path : CStr) (env : AddAnswers) :
    Option directory_watch_t × file_monitor × List KCall :=
  let grown : Option file_monitor :=
    if monitor.dir_count ≥ monitor.dir_capacity then
      if env.realloc_ok then some { monitor with dir_capacity := monitor.dir_capacity * 2 }
      else none
    else some monitor
  match grown with
  | none => (none, monitor, [])
  | some monitor =>
    let wd := env.wd
    if wd = -1 then
      (none, monitor, [KCall.add_watch dir_path WATCH_FLAGS])
    else if !env.malloc_dir_watch_ok then
      (none, monitor, [KCall.add_watch dir_path WATCH_FLAGS, KCall.rm_watch wd])
    else if !env.strdup_ok || !env.malloc_files_ok then
      (none, monitor, [KCall.add_watch dir_path WATCH_FLAGS, KCall.rm_watch wd])
    else
      let dir_watch : directory_watch_t :=
        { dir_path := dir_path, watch_descriptor := wd, files := [], file_capacity := 10 }
      (some dir_watch,
        { monitor with directories := monitor.directories ++ [dir_watch] },
        [KCall.add_watch dir_path WATCH_FLAGS])

/-- The requests of `cleanup_directory_watch`; the memory it frees is not modelled. -/
def cleanup_directory_watch (dir_watch : directory_watch_t) : List KCall :=
  [KCall.rm_watch dir_watch.watch_descriptor]

/-- The body of the `for` loop of `file_monitor_add_paths`, from index `i` on; `paths` are
the entries `paths[i ..]` and `env i` answers the attempt made for `paths[i]`. -/
def add_paths_loop (monitor : file_monitor) (paths : List CStr) (i : Nat)
    (env : Nat → AddAnswers) : file_monitor × List KCall :=
  match paths with
  | [] => (monitor, [])
  | dir_path :: rest =>
    match find_directory_watch monitor dir_path with
    | some _ => add_paths_loop monitor rest (i + 1) env
    | none =>
      let r := add_directory_watch monitor dir_path (env i)
      let s := add_paths_loop r.2.1 rest (i + 1) env
      (s.1, r.2.2 ++ s.2)

/-- The status, the monitor afterwards and the requests made to the kernel. `none` is a
null pointer; the array `paths` has at least `path_count` entries. -/
def file_monitor_add_paths (monitor : Option file_monitor) (paths : Option (List CStr))
    (path_count : Int) (env : Nat → AddAnswers) : Int × Option file_monitor × List KCall :=
  match monitor, paths with
  | some m, some ps =>
    if path_count ≤ 0 then (-1, monitor, [])
    else
      let r := add_paths_loop m (ps.take path_count.toNat) 0 env
      (0, some r.1, r.2)
  | _, _ => (-1, monitor, [])

/-- The inner loop of `file_monitor_remove_paths`: the index of the first entry from `j` on
whose path is `dir_path`, or `-1`. -/
def find_dir_index (dirs : List directory_watch_t) (dir_path : CStr) (j : Nat) : Int :=
  match dirs with
  | [] => -1
  | d :: rest => if d.dir_path = dir_path then (j : Int) else find_dir_index rest dir_path (j + 1)

/-- The `for` loop of `file_monitor_remove_paths`. -/
def remove_paths_loop (monitor : file_monitor) (paths : List CStr) :
    file_monitor × List KCall :=
  match paths with
  | [] => (monitor, [])
  | dir_path :: rest =>
    let dir_index := find_dir_index monitor.directories dir_path 0
    if dir_index ≥ 0 then
      let calls :=
        match monitor.directories[dir_index.toNat]? with
        | some d => cleanup_directory_watch d
        | none => []
      let s := remove_paths_loop
        { monitor with directories := monitor.directories.eraseIdx dir_index.toNat } rest
      (s.1, calls ++ s.2)
    else remove_paths_loop monitor rest

def file_monitor_remove_paths (monitor : Option file_monitor) (paths : Option (List CStr))
    (path_count : Int) : Int × Option file_monitor × List KCall :=
  match monitor, paths with
  | some m, some ps =>
    if path_count ≤ 0 then (-1, monitor, [])
    else
      let r := remove_paths_loop m (ps.take path_count.toNat)
      (0, some r.1, r.2)
  | _, _ => (-1, monitor, [])

/-! ## Creation of a monitor -/

/-- What `file_monitor_new` acquires. -/
inductive Resource where
  | monitor_mem
  | inotify_fd
  | shutdown_pipe_read
  | shutdown_pipe_write
  | lock
  | directories_mem
  | watch_thread
deriving DecidableEq, Repr

inductive ResOp where
  | acquire (r : Resource)
  | release (r : Resource)
deriving DecidableEq, Repr

/-- The resources the process holds, and the acquisitions and releases made so far. -/
structure Held where
  held : List Resource
  log : List ResOp
deriving DecidableEq, Repr

def Held.acquire (s : Held) (r : Resource) : Held :=
  { held := r :: s.held, log := s.log ++ [ResOp.acquire r] }

/-- The calls `free`, `close` and `pthread_mutex_destroy`. -/
def Held.release (s : Held) (r : Resource) : Held :=
  { held := s.held.erase r, log := s.log ++ [ResOp.release r] }

/-- What the environment answers during `file_monitor_new`. -/
structure NewAnswers where
  /-- `malloc` of the monitor returns a block. -/
  malloc_monitor_ok : Bool
  /-- The result of `inotify_init`: `-1` is failure. -/
  inotify_init : Int
  /-- The result of `pipe`: `-1` is failure. -/
  pipe : Int
  /-- The result of `pthread_mutex_init`: `0` is success. -/
  mutex_init : Int
  /-- `malloc` of the directory array returns a block. -/
  malloc_directories_ok : Bool
  /-- The result of `pthread_create`: `0` is success. -/
  pthread_create : Int
deriving DecidableEq, Repr

/-- The monitor (or `none` for `NULL`) and the resources held afterwards. An absent callback
is `none`. -/
def file_monitor_new (callback : Option file_change_callback) (env : NewAnswers) (s : Held) :
    Option file_monitor × Held :=
  match callback with
  | none => (none, s)
  | some cb =>
    if !env.malloc_monitor_ok then (none, s)
    else
      let s := s.acquire Resource.monitor_mem
      if env.inotify_init = -1 then
        (none, s.release Resource.monitor_mem)
      else
        let s := s.acquire Resource.inotify_fd
        if env.pipe = -1 then
          (none, (s.release Resource.inotify_fd).release Resource.monitor_mem)
        else
          let s := (s.acquire Resource.shutdown_pipe_read).acquire Resource.shutdown_pipe_write
          if env.mutex_init ≠ 0 then
            (none, (((s.release Resource.shutdown_pipe_read).release
              Resource.shutdown_pipe_write).release Resource.inotify_fd).release
              Resource.monitor_mem)
          else
            let s := s.acquire Resource.lock
            if !env.malloc_directories_ok then
              (none, ((((s.release Resource.lock).release Resource.shutdown_pipe_read).release
                Resource.shutdown_pipe_write).release Resource.inotify_fd).release
                Resource.monitor_mem)
            else
              let s := s.acquire Resource.directories_mem
              if env.pthread_create ≠ 0 then
                (none, (((((s.release Resource.directories_mem).release Resource.lock).release
                  Resource.shutdown_pipe_read).release Resource.shutdown_pipe_write).release
                  Resource.inotify_fd).release Resource.monitor_mem)
              else
                (some { directories := [], dir_capacity := 10, callback := cb },
                  s.acquire Resource.watch_thread)

/-- The resources outstanding after the acquisitions and releases of `log`, given those
outstanding before; `none` when `log` releases a resource that is not outstanding. -/
def outstanding (log : List ResOp) (acc : List Resource) : Option (List Resource) :=
  match log with
  | [] => some acc
  | ResOp.acquire r :: rest => outstanding rest (r :: acc)
  | ResOp.release r :: rest => if r ∈ acc then outstanding rest (acc.erase r) else none

/-- One of the steps of `file_monitor_new` fails. -/
def step_fails (env : NewAnswers) : Prop :=
  env.malloc_monitor_ok = false ∨ env.inotify_init = -1 ∨ env.pipe = -1 ∨
    env.mutex_init ≠ 0 ∨ env.malloc_directories_ok = false ∨ env.pthread_create ≠ 0

instance (env : NewAnswers) : Decidable (step_fails env) := by
  unfold step_fails
  infer_instance

/-! ## Reachable registry states -/

/-- The monitors obtained from a created one by calls of `file_monitor_add_paths` and
`file_monitor_remove_paths`, whatever the environment answers. -/
inductive Reachable : file_monitor → Prop where
  | created (callback : Option file_change_callback) (env : NewAnswers) (s t : Held)
      (m : file_monitor) (h : file_monitor_new callback env s = (some m, t)) : Reachable m
  | add_paths (m m2 : file_monitor) (paths : Option (List CStr)) (path_count : Int)
      (env : Nat → AddAnswers) (status : Int) (calls : List KCall) (hm : Reachable m)
      (h : file_monitor_add_paths (some m) paths path_count env = (status, some m2, calls)) :
      Reachable m2
  | remove_paths (m m2 : file_monitor) (paths : Option (List CStr)) (path_count : Int)
      (status : Int) (calls : List KCall) (hm : Reachable m)
      (h : file_monitor_remove_paths (some m) paths path_count = (status, some m2, calls)) :
      Reachable m2

/-- The environment lets `add_directory_watch` succeed on `monitor`: the array can grow
when it is full, the kernel returns a watch and the three allocations succeed. -/
def accepted (monitor : file_monitor) (env : AddAnswers) : Bool :=
  (decide (monitor.dir_count < monitor.dir_capacity) || env.realloc_ok) &&
    decide (env.wd ≠ -1) && env.malloc_dir_watch_ok && env.strdup_ok && env.malloc_files_ok

/-- The number of directory watches of `monitor` whose path is `dir_path`. -/
def watches_for (monitor : file_monitor) (dir_path : CStr) : Nat :=
  (monitor.directories.filter (fun d => decide (d.dir_path = dir_path))).length

/-- The answers of an environment in which every request succeeds, the kernel returning the
watch `wd`. -/
def accept_with (wd : Int) : AddAnswers :=
  { realloc_ok := true, wd := wd, malloc_dir_watch_ok := true, strdup_ok := true,
    malloc_files_ok := true }

/-- The answers of an environment in which the kernel returns the watch `wd` and the
allocation of the `directory_watch_t` fails. -/
def no_memory_with (wd : Int) : AddAnswers :=
  { realloc_ok := true, wd := wd, malloc_dir_watch_ok := false, strdup_ok := true,
    malloc_files_ok := true }

/-- The answers of an environment in which the kernel rejects the path. -/
def rejected : AddAnswers :=
  { realloc_ok := true, wd := -1, malloc_dir_watch_ok := true, strdup_ok := true,
    malloc_files_ok := true }

/-- An empty registry, as `file_monitor_new` returns it. -/
def empty_monitor (callback : file_change_callback) : file_monitor :=
  { directories := [], dir_capacity := 10, callback := callback }

/-- The number of directory watches of `monitor` whose kernel watch identifier is `wd`. -/
def watches_with (monitor : file_monitor) (wd : Int) : Nat :=
  (monitor.directories.filter (fun d => decide (d.watch_descriptor = wd))).length

/-- Along the loop of `file_monitor_add_paths`, every identifier the kernel returns for a
watch that is then registered is held by no entry of the registry at that moment. -/
def fresh_answers (monitor : file_monitor) (paths : List CStr) (i : Nat)
    (env : Nat → AddAnswers) : Bool :=
  match paths with
  | [] => true
  | dir_path :: rest =>
    match find_directory_watch monitor dir_path with
    | some _ => fresh_answers monitor rest (i + 1) env
    | none =>
      (!accepted monitor (env i) ||
          monitor.directories.all (fun d => decide (d.watch_descriptor ≠ (env i).wd))) &&
        fresh_answers (add_directory_watch monitor dir_path (env i)).2.1 rest (i + 1) env

/-- The monitors reachable when the kernel never returns an identifier that an entry of the
registry holds. -/
inductive ReachableFresh : file_monitor → Prop where
  | created (callback : Option file_change_callback) (env : NewAnswers) (s t : Held)
      (m : file_monitor) (h : file_monitor_new callback env s = (some m, t)) :
      ReachableFresh m
  | add_paths (m m2 : file_monitor) (paths : List CStr) (path_count : Int)
      (env : Nat → AddAnswers) (status : Int) (calls : List KCall) (hm : ReachableFresh m)
      (hf : fresh_answers m (paths.take path_count.toNat) 0 env = true)
      (h : file_monitor_add_paths (some m) (some paths) path_count env
        = (status, some m2, calls)) :
      ReachableFresh m2
  | remove_paths (m m2 : file_monitor) (paths : Option (List CStr)) (path_count : Int)
      (status : Int) (calls : List KCall) (hm : ReachableFresh m)
      (h : file_monitor_remove_paths (some m) paths path_count = (status, some m2, calls)) :
      ReachableFresh m2

/-- Creation succeeds at every step. -/
def all_ok : NewAnswers :=
  { malloc_monitor_ok := true, inotify_init := 3, pipe := 0, mutex_init := 0,
    malloc_directories_ok := true, pthread_create := 0 }

/-- No two entries of the registry have the same path. -/
def paths_nodup (m : file_monitor) : Prop :=
  (m.directories.map (fun d => d.dir_path)).Nodup

/-- No two entries of the registry have the same kernel watch identifier. -/
def wds_nodup (m : file_monitor) : Prop :=
  (m.directories.map (fun d => d.watch_descriptor)).Nodup

/-- The monitor when the loop of `file_monitor_add_paths` reaches `paths[i]`: the code has
run on the `i` paths before it. -/
def reached (monitor : file_monitor) (paths : List CStr) (env : Nat → AddAnswers)
    (i : Nat) : file_monitor :=
  (add_paths_loop monitor (paths.take i) 0 env).1

/-- The entry that `addPaths` appends for `paths[i]`, in the words of the specification: a
new directory watch when the path was not registered when it was reached and the kernel
and the allocator accepted it, nothing otherwise. -/
def watch_added_at (monitor : file_monitor) (paths : List CStr) (env : Nat → AddAnswers)
    (i : Nat) : Option directory_watch_t :=
  match paths[i]? with
  | none => none
  | some p =>
    if watches_for (reached monitor paths env i) p = 0 ∧
        accepted (reached monitor paths env i) (env i) = true then
      some { dir_path := p, watch_descriptor := (env i).wd, files := [], file_capacity := 10 }
    else none

/-- The entries that `addPaths` appends, in the order of `paths`. -/
def watches_added (monitor : file_monitor) (paths : List CStr) (env : Nat → AddAnswers) :
    List directory_watch_t :=
  (List.range paths.length).filterMap (watch_added_at monitor paths env)

/-! ## The event loop -/

/-- One record of the kernel, `struct inotify_event`. `len` is the size of the name field,
its NUL bytes included; `name` holds the bytes of that field before the first NUL. -/
structure inotify_event where
  wd : Int
  mask : Nat
  cookie : Nat
  len : Nat
  name : CStr
deriving DecidableEq, Repr

/-- The value of `sizeof(struct inotify_event)`. -/
def sizeof_inotify_event : Nat := 16

/-- A record as the kernel writes it: `mask`, `cookie` and `len` are 32-bit values and the
name, when there is one, fits in its field together with a NUL. -/
def well_formed (ev : inotify_event) : Prop :=
  ev.mask < 2 ^ 32 ∧ ev.cookie < 2 ^ 32 ∧ ev.len < 2 ^ 32 ∧
    (if ev.len = 0 then ev.name = [] else ev.name.length < ev.len)

instance (ev : inotify_event) : Decidable (well_formed ev) := by
  unfold well_formed
  infer_instance

/-- The number of bytes that the records `evs`, one after the other, occupy. -/
def buffer_len (evs : List inotify_event) : Nat :=
  match evs with
  | [] => 0
  | ev :: rest => sizeof_inotify_event + ev.len + buffer_len rest

/-- The record read at `&buffer[i]` when the buffer holds the records `evs` one after the
other; `none` when no record starts at the offset `i`. -/
def event_at (evs : List inotify_event) (i : Nat) : Option inotify_event :=
  match evs with
  | [] => none
  | ev :: rest =>
    if i = 0 then some ev
    else if i < sizeof_inotify_event + ev.len then none
    else event_at rest (i - (sizeof_inotify_event + ev.len))

/-- One call of the observer. The `int` argument `event_type` is given by its 32 bits. -/
structure Invocation where
  callback : file_change_callback
  path : CStr
  event_type : Nat
deriving DecidableEq, Repr

/-- The text that `snprintf(full_path, size, "%s/%s", dir_path, name)` leaves in
`full_path`: at most `size - 1` bytes. -/
def snprintf_path (size : Nat) (dir_path name : CStr) : CStr :=
  (dir_path ++ ['/'] ++ name).take (size - 1)

/-- The loop over `j` of `watch_thread_func`: the first entry whose identifier is `wd`. -/
def find_watch_by_wd (dirs : List directory_watch_t) (wd : Int) : Option directory_watch_t :=
  match dirs with
  | [] => none
  | d :: rest => if d.watch_descriptor = wd then some d else find_watch_by_wd rest wd

/-- The body of `while (i < len)` for one record. -/
def dispatch_event (monitor : file_monitor) (event : inotify_event) : List Invocation :=
  match find_watch_by_wd monitor.directories event.wd with
  | some dir_watch =>
    if event.len > 0 then
      [{ callback := monitor.callback,
         path := snprintf_path PATH_MAX dir_watch.dir_path event.name,
         event_type := event.mask % 2 ^ 32 }]
    else []
  | none => []

/-- The loop `while (i < len)` of `watch_thread_func`, with at most `fuel` iterations: the
monitor afterwards and the calls of the observer, in order. -/
def dispatch_loop (fuel : Nat) (monitor : file_monitor) (buffer : List inotify_event)
    (len i : Nat) : file_monitor × List Invocation :=
  match fuel with
  | 0 => (monitor, [])
  | fuel + 1 =>
    if i < len then
      match event_at buffer i with
      | none => (monitor, [])
      | some event =>
        let r := dispatch_loop fuel monitor buffer len (i + sizeof_inotify_event + event.len)
        (r.1, dispatch_event monitor event ++ r.2)
    else (monitor, [])

/-- The processing of one batch of `len` bytes, under the lock. The offset grows by at
least 16 in every iteration, so `len` iterations are enough. -/
def process_batch (monitor : file_monitor) (buffer : List inotify_event) (len : Nat) :
    file_monitor × List Invocation :=
  dispatch_loop len monitor buffer len 0

/-- What the specification says a record yields: one call, with the mask of the record, for
a record with a name whose identifier resolves to a registered directory watch, nothing
otherwise. The path of the call is the one `snprintf` builds. -/
def delivered (monitor : file_monitor) (ev : inotify_event) : Option Invocation :=
  match monitor.directories.find? (fun d => decide (d.watch_descriptor = ev.wd)) with
  | none => none
  | some d =>
    if ev.len = 0 then none
    else some { callback := monitor.callback,
                path := snprintf_path PATH_MAX d.dir_path ev.name,
                event_type := ev.mask }

/-- What one return of `select` and the `read` after it give the thread: the result of
`select`, the descriptors it reports ready, the result of `read`, the records it put in
the buffer and the registry at the moment the thread takes the lock. -/
structure Wakeup where
  select_result : Int
  shutdown_ready : Bool
  inotify_ready : Bool
  read_len : Int
  buffer : List inotify_event
  monitor : file_monitor
deriving DecidableEq, Repr

inductive LoopState where
  | WAITING
  | PROCESSING (monitor : file_monitor) (buffer : List inotify_event) (len : Nat)
  | STOPPED
deriving DecidableEq, Repr

/-- The observable actions of the thread: a `read` of the inotify descriptor and a call of
the observer. -/
inductive LoopAction where
  | read
  | invoke (call : Invocation)
deriving DecidableEq, Repr

/-- One step of `watch_thread_func`: the next state, the actions of the step and the
wake-ups still to come. `none` when the thread has returned, or when it waits in `select`
and nothing wakes it. -/
def loop_step (s : LoopState) (env : List Wakeup) :
    Option (LoopState × List LoopAction × List Wakeup) :=
  match s with
  | LoopState.STOPPED => none
  | LoopState.PROCESSING monitor buffer len =>
    some (LoopState.WAITING,
      (process_batch monitor buffer len).2.map LoopAction.invoke, env)
  | LoopState.WAITING =>
    match env with
    | [] => none
    | w :: rest =>
      if w.select_result = -1 then some (LoopState.STOPPED, [], rest)
      else if w.shutdown_ready then some (LoopState.STOPPED, [], rest)
      else if w.inotify_ready then
        if w.read_len ≤ 0 then some (LoopState.WAITING, [LoopAction.read], rest)
        else some (LoopState.PROCESSING w.monitor w.buffer w.read_len.toNat,
          [LoopAction.read], rest)
      else some (LoopState.WAITING, [], rest)

/-- The thread from the state `s` on, for at most `fuel` steps: the state it ends in and
all its actions, in order. -/
def watch_thread_func (fuel : Nat) (s : LoopState) (env : List Wakeup) :
    LoopState × List LoopAction :=
  match fuel with
  | 0 => (s, [])
  | fuel + 1 =>
    match loop_step s env with
    | none => (s, [])
    | some (s2, actions, rest) =>
      let r := watch_thread_func fuel s2 rest
      (r.1, actions ++ r.2)

/-! ## Example inputs -/

/-- The registry after `/tmp/a` and `/tmp/a/`, two names of one directory, were added and
the kernel returned the watch `1` for both. -/
def aliased_monitor : file_monitor :=
  { directories :=
      [{ dir_path := "/tmp/a".toList, watch_descriptor := 1, files := [], file_capacity := 10 },
       { dir_path := "/tmp/a/".toList, watch_descriptor := 1, files := [],
         file_capacity := 10 }],
    dir_capacity := 10, callback := 7 }

/-- The registry after `/tmp/a` and `/tmp/b` were added and the kernel returned the watches
`1` and `2`. -/
def two_watches : file_monitor :=
  { directories :=
      [{ dir_path := "/tmp/a".toList, watch_descriptor := 1, files := [], file_capacity := 10 },
       { dir_path := "/tmp/b".toList, watch_descriptor := 2, files := [],
         file_capacity := 10 }],
    dir_capacity := 10, callback := 7 }

/-- Five paths for one call of `addPaths` on `two_watches`: a new one, one the kernel
rejects, a registered one, a new one, and the first again. -/
def five_paths : List CStr :=
  ["/tmp/c".toList, "/nowhere".toList, "/tmp/a".toList, "/tmp/d".toList, "/tmp/c".toList]

/-- The kernel rejects the second path and returns the watch `i + 3` for `paths[i]`
otherwise. -/
def second_rejected (i : Nat) : AddAnswers :=
  if i = 1 then rejected else accept_with (i + 3)

/-- Example records: a file created in `/tmp/a`, a file under a watch that is not
registered, a directory created in `/tmp/b`, and a record without a name. -/
def created_file : inotify_event :=
  { wd := 1, mask := IN_CREATE, cookie := 0, len := 16, name := "a.txt".toList }

def unknown_watch : inotify_event :=
  { wd := 9, mask := IN_CREATE, cookie := 0, len := 16, name := "b.txt".toList }

def created_subdirectory : inotify_event :=
  { wd := 2, mask := IN_CREATE ||| IN_ISDIR, cookie := 0, len := 16, name := "sub".toList }

def nameless : inotify_event :=
  { wd := 2, mask := 0x00008000, cookie := 0, len := 0, name := [] }

def example_batch : List inotify_event :=
  [created_file, unknown_watch, created_subdirectory, nameless, created_file]

/-- A directory 16 levels deep, each level a name of 249 bytes: a path of 4000 bytes. -/
def deep_dir : CStr := (List.replicate 16 ('/' :: List.replicate 249 'd')).flatten

/-- A file name of 255 bytes, the longest the kernel reports. -/
def long_name : CStr := List.replicate 255 'n'

def deep_monitor : file_monitor :=
  { directories :=
      [{ dir_path := deep_dir, watch_descriptor := 1, files := [], file_capacity := 10 }],
    dir_capacity := 10, callback := 7 }

def deep_event : inotify_event :=
  { wd := 1, mask := IN_CREATE, cookie := 0, len := 256, name := long_name }

/-- Every step before `pthread_create` succeeds and the thread cannot be started. -/
def no_thread : NewAnswers :=
  { malloc_monitor_ok := true, inotify_init := 3, pipe := 0, mutex_init := 0,
    malloc_directories_ok := true, pthread_create := 11 }

/-- A wake-up at which both the shutdown pipe and the inotify descriptor are ready. -/
def both_ready : Wakeup :=
  { select_result := 2, shutdown_ready := true, inotify_ready := true, read_len := 32,
    buffer := [created_file], monitor := two_watches }

/-- A wake-up at which only the inotify descriptor is ready. -/
def data_ready : Wakeup :=
  { select_result := 1, shutdown_ready := false, inotify_ready := true, read_len := 32,
    buffer := [created_file], monitor := two_watches }

/-! ## Lemmas on the registry -/

theorem find_from_eq_none (dirs : List directory_watch_t) (p : CStr) :
    find_directory_watch_from dirs p = none ↔ p ∉ dirs.map (fun d => d.dir_path) := by
  induction dirs with
  | nil => simp [find_directory_watch_from]
  | cons d rest ih =>
    unfold find_directory_watch_from
    by_cases h : d.dir_path = p
    · simp [h]
    · simp only [h, if_false, ih, List.map_cons, List.mem_cons, not_or]
      constructor
      · intro h2
        exact ⟨fun e => h e.symm, h2⟩
      · intro h2
        exact h2.2

theorem find_from_some (dirs : List directory_watch_t) (p : CStr) (d : directory_watch_t)
    (h : find_directory_watch_from dirs p = some d) : d ∈ dirs ∧ d.dir_path = p := by
  induction dirs with
  | nil => simp [find_directory_watch_from] at h
  | cons e rest ih =>
    unfold find_directory_watch_from at h
    by_cases he : e.dir_path = p
    · simp only [he, if_true, Option.some.injEq] at h
      subst h
      exact ⟨List.mem_cons_self _ _, he⟩
    · simp only [he, if_false] at h
      exact ⟨List.mem_cons_of_mem _ (ih h).1, (ih h).2⟩

theorem add_directory_watch_directories (m : file_monitor) (p : CStr) (e : AddAnswers) :
    (add_directory_watch m p e).2.1.directories =
      if accepted m e = true then
        m.directories ++ [{ dir_path := p, watch_descriptor := e.wd, files := [],
                            file_capacity := 10 }]
      else m.directories := by
  unfold add_directory_watch accepted
  by_cases h1 : m.dir_count < m.dir_capacity <;> by_cases h2 : e.wd = -1 <;>
    cases h3 : e.realloc_ok <;> cases h4 : e.malloc_dir_watch_ok <;>
    cases h5 : e.strdup_ok <;> cases h6 : e.malloc_files_ok <;>
    simp [h1, h2, not_le.mpr, not_lt.mp]

theorem add_directory_watch_nodup (m : file_monitor) (p : CStr) (e : AddAnswers)
    (hm : paths_nodup m) (hp : find_directory_watch m p = none) :
    paths_nodup (add_directory_watch m p e).2.1 := by
  unfold paths_nodup at *
  rw [add_directory_watch_directories]
  split
  · rw [List.map_append, List.nodup_append]
    refine ⟨hm, by simp, ?_⟩
    intro a ha hb
    simp only [List.map_cons, List.map_nil, List.mem_singleton] at hb
    subst hb
    exact (find_from_eq_none _ _).mp hp ha
  · exact hm

theorem add_paths_loop_nodup (ps : List CStr) (m : file_monitor) (i : Nat)
    (env : Nat → AddAnswers) (hm : paths_nodup m) :
    paths_nodup (add_paths_loop m ps i env).1 := by
  induction ps generalizing m i with
  | nil => simpa [add_paths_loop] using hm
  | cons p rest ih =>
    unfold add_paths_loop
    cases hf : find_directory_watch m p with
    | some d => exact ih m (i + 1) hm
    | none => exact ih _ (i + 1) (add_directory_watch_nodup m p (env i) hm hf)

theorem remove_paths_loop_nodup (ps : List CStr) (m : file_monitor) (hm : paths_nodup m) :
    paths_nodup (remove_paths_loop m ps).1 := by
  induction ps generalizing m with
  | nil => simpa [remove_paths_loop] using hm
  | cons p rest ih =>
    unfold remove_paths_loop
    simp only
    split
    · apply ih
      unfold paths_nodup at *
      exact hm.sublist (List.Sublist.map _ (List.eraseIdx_sublist _ _))
    · exact ih m hm

theorem file_monitor_new_some (callback : Option file_change_callback) (env : NewAnswers)
    (s t : Held) (m : file_monitor) (h : file_monitor_new callback env s = (some m, t)) :
    ∃ cb, callback = some cb ∧ m = empty_monitor cb := by
  unfold file_monitor_new at h
  cases callback with
  | none => simp at h
  | some cb =>
    refine ⟨cb, rfl, ?_⟩
    simp only at h
    split_ifs at h <;> simp_all [empty_monitor]

theorem reachable_paths_nodup (m : file_monitor) (h : Reachable m) : paths_nodup m := by
  induction h with
  | created callback env s t m h =>
    obtain ⟨cb, _, rfl⟩ := file_monitor_new_some callback env s t m h
    simp [paths_nodup, empty_monitor]
  | add_paths m m2 paths path_count env status calls _ h ih =>
    unfold file_monitor_add_paths at h
    cases paths with
    | none => simp at h; rw [← h.2.1]; exact ih
    | some ps =>
      simp only at h
      split_ifs at h
      · simp at h; rw [← h.2.1]; exact ih
      · simp at h; rw [← h.2.1]; exact add_paths_loop_nodup _ _ _ _ ih
  | remove_paths m m2 paths path_count status calls _ h ih =>
    unfold file_monitor_remove_paths at h
    cases paths with
    | none => simp at h; rw [← h.2.1]; exact ih
    | some ps =>
      simp only at h
      split_ifs at h
      · simp at h; rw [← h.2.1]; exact ih
      · simp at h; rw [← h.2.1]; exact remove_paths_loop_nodup _ _ ih

theorem filter_key_eq_nil {κ : Type} [DecidableEq κ] (f : directory_watch_t → κ)
    (dirs : List directory_watch_t) (k : κ) (h : k ∉ dirs.map f) :
    dirs.filter (fun d => decide (f d = k)) = [] := by
  rw [List.filter_eq_nil_iff]
  intro d hd
  simp only [decide_eq_true_eq]
  intro e
  exact h (List.mem_map.mpr ⟨d, hd, e⟩)

theorem filter_key_length_le_one {κ : Type} [DecidableEq κ] (f : directory_watch_t → κ)
    (dirs : List directory_watch_t) (k : κ) (h : (dirs.map f).Nodup) :
    (dirs.filter (fun d => decide (f d = k))).length ≤ 1 := by
  induction dirs with
  | nil => simp
  | cons d rest ih =>
    rw [List.map_cons, List.nodup_cons] at h
    by_cases e : f d = k
    · rw [List.filter_cons_of_pos (by simpa using e), filter_key_eq_nil f rest k (e ▸ h.1)]
      simp
    · rw [List.filter_cons_of_neg (by simpa using e)]
      exact ih h.2

theorem watches_for_le_one (m : file_monitor) (hm : paths_nodup m) (p : CStr) :
    watches_for m p ≤ 1 :=
  filter_key_length_le_one (fun d => d.dir_path) m.directories p hm

theorem find_eq_none_iff_watches_for (m : file_monitor) (p : CStr) :
    find_directory_watch m p = none ↔ watches_for m p = 0 := by
  unfold find_directory_watch watches_for
  rw [find_from_eq_none, List.length_eq_zero, List.filter_eq_nil_iff]
  simp only [List.mem_map, not_exists, not_and, decide_eq_true_eq]

theorem add_paths_single (m : file_monitor) (d : CStr) (env : Nat → AddAnswers) :
    file_monitor_add_paths (some m) (some [d]) 1 env =
      match find_directory_watch m d with
      | some _ => (0, some m, [])
      | none => (0, some (add_directory_watch m d (env 0)).2.1,
          (add_directory_watch m d (env 0)).2.2) := by
  unfold file_monitor_add_paths
  cases h : find_directory_watch m d <;> simp [add_paths_loop, h]

theorem reachable_empty (callback : file_change_callback) :
    Reachable (empty_monitor callback) :=
  Reachable.created (some callback) all_ok ⟨[], []⟩ _ _ rfl

/-- C1 (amended). In every reachable registry state at most one directory watch has any
given path; and `addPaths([d])` followed by `addPaths([d])`, the first registration of `d`
being accepted by the kernel and by the allocator, leaves exactly one watch for `d`,
whatever the environment answers to the second call. -/
theorem one_watch_per_path (m : file_monitor) (h : Reachable m) :
    (∀ p : CStr, watches_for m p ≤ 1) ∧
    ∀ (d : CStr) (env1 env2 : Nat → AddAnswers), accepted m (env1 0) = true →
      (file_monitor_add_paths
        (file_monitor_add_paths (some m) (some [d]) 1 env1).2.1 (some [d]) 1 env2).2.1.map
        (fun m2 => watches_for m2 d) = some 1 := by
  have hn := reachable_paths_nodup m h
  refine ⟨watches_for_le_one m hn, ?_⟩
  intro d env1 env2 hacc
  have key : ∀ m1 : file_monitor, watches_for m1 d = 1 →
      (file_monitor_add_paths (some m1) (some [d]) 1 env2).2.1.map
        (fun m2 => watches_for m2 d) = some 1 := by
    intro m1 h1
    rw [add_paths_single]
    cases hf : find_directory_watch m1 d with
    | some w => simp [h1]
    | none =>
      rw [find_eq_none_iff_watches_for] at hf
      omega
  rw [add_paths_single]
  cases hf : find_directory_watch m d with
  | some w =>
    apply key
    have h0 : watches_for m d ≠ 0 := by
      intro e
      rw [(find_eq_none_iff_watches_for m d).mpr e] at hf
      cases hf
    have h1 := watches_for_le_one m hn d
    omega
  | none =>
    apply key
    have h0 := (find_eq_none_iff_watches_for m d).mp hf
    unfold watches_for at *
    rw [add_directory_watch_directories, if_pos hacc, List.filter_append, List.length_append,
      h0]
    simp

/-- C1 (amended) on a created monitor, for the path `/tmp/a` accepted in both calls. -/
theorem one_watch_per_path_witness :
    Reachable (empty_monitor 7) ∧ watches_for (empty_monitor 7) "/tmp/a".toList ≤ 1 ∧
    (file_monitor_add_paths
      (file_monitor_add_paths (some (empty_monitor 7)) (some ["/tmp/a".toList]) 1
        (fun _ => accept_with 1)).2.1 (some ["/tmp/a".toList]) 1
      (fun _ => accept_with 2)).2.1.map
      (fun m2 => watches_for m2 "/tmp/a".toList) = some 1 :=
  ⟨reachable_empty 7,
    (one_watch_per_path (empty_monitor 7) (reachable_empty 7)).1 "/tmp/a".toList,
    (one_watch_per_path (empty_monitor 7) (reachable_empty 7)).2 "/tmp/a".toList
      (fun _ => accept_with 1) (fun _ => accept_with 2) (by decide)⟩

/-- C1 as stated fails: on a created monitor the kernel accepts `/tmp/a` in both calls
(it returns the watch `1`), the allocation of the `directory_watch_t` fails, and no watch
for `/tmp/a` is left. -/
theorem one_watch_needs_memory :
    Reachable (empty_monitor 7) ∧ (no_memory_with 1).wd ≠ -1 ∧
    (file_monitor_add_paths
      (file_monitor_add_paths (some (empty_monitor 7)) (some ["/tmp/a".toList]) 1
        (fun _ => no_memory_with 1)).2.1 (some ["/tmp/a".toList]) 1
      (fun _ => no_memory_with 1)).2.1.map
      (fun m2 => watches_for m2 "/tmp/a".toList) = some 0 :=
  ⟨reachable_empty 7, by decide, by decide⟩

theorem add_directory_watch_wds_nodup (m : file_monitor) (p : CStr) (e : AddAnswers)
    (hm : wds_nodup m)
    (hf : (!accepted m e ||
      m.directories.all (fun d => decide (d.watch_descriptor ≠ e.wd))) = true) :
    wds_nodup (add_directory_watch m p e).2.1 := by
  unfold wds_nodup at *
  rw [add_directory_watch_directories]
  split
  · rename_i hacc
    rw [hacc] at hf
    simp only [Bool.not_true, Bool.false_or, List.all_eq_true, decide_eq_true_eq] at hf
    rw [List.map_append, List.nodup_append]
    refine ⟨hm, by simp, ?_⟩
    intro a ha hb
    simp only [List.map_cons, List.map_nil, List.mem_singleton] at hb
    subst hb
    obtain ⟨d, hd, hw⟩ := List.mem_map.mp ha
    exact hf d hd hw
  · exact hm

theorem add_paths_loop_wds_nodup (ps : List CStr) (m : file_monitor) (i : Nat)
    (env : Nat → AddAnswers) (hm : wds_nodup m) (hf : fresh_answers m ps i env = true) :
    wds_nodup (add_paths_loop m ps i env).1 := by
  induction ps generalizing m i with
  | nil => simpa [add_paths_loop] using hm
  | cons p rest ih =>
    unfold add_paths_loop
    unfold fresh_answers at hf
    cases hfind : find_directory_watch m p with
    | some d =>
      simp only [hfind] at hf
      exact ih m (i + 1) hm hf
    | none =>
      simp only [hfind, Bool.and_eq_true] at hf
      exact ih _ (i + 1) (add_directory_watch_wds_nodup m p (env i) hm hf.1) hf.2

theorem remove_paths_loop_wds_nodup (ps : List CStr) (m : file_monitor) (hm : wds_nodup m) :
    wds_nodup (remove_paths_loop m ps).1 := by
  induction ps generalizing m with
  | nil => simpa [remove_paths_loop] using hm
  | cons p rest ih =>
    unfold remove_paths_loop
    simp only
    split
    · apply ih
      unfold wds_nodup at *
      exact hm.sublist (List.Sublist.map _ (List.eraseIdx_sublist _ _))
    · exact ih m hm

theorem reachable_fresh_wds_nodup (m : file_monitor) (h : ReachableFresh m) : wds_nodup m := by
  induction h with
  | created callback env s t m h =>
    obtain ⟨cb, _, rfl⟩ := file_monitor_new_some callback env s t m h
    simp [wds_nodup, empty_monitor]
  | add_paths m m2 paths path_count env status calls _ hf h ih =>
    unfold file_monitor_add_paths at h
    simp only at h
    split_ifs at h
    · simp at h; rw [← h.2.1]; exact ih
    · simp at h; rw [← h.2.1]; exact add_paths_loop_wds_nodup _ _ _ _ ih hf
  | remove_paths m m2 paths path_count status calls _ h ih =>
    unfold file_monitor_remove_paths at h
    cases paths with
    | none => simp at h; rw [← h.2.1]; exact ih
    | some ps =>
      simp only at h
      split_ifs at h
      · simp at h; rw [← h.2.1]; exact ih
      · simp at h; rw [← h.2.1]; exact remove_paths_loop_wds_nodup _ _ ih

/-- C2 (amended). In every registry state reachable by calls of `addPaths` and `removePaths`
in which the kernel never returns, for a watch that is then registered, an identifier that
an entry of the registry holds at that moment, each identifier held in the registry refers
back to exactly one directory watch. -/
theorem one_watch_per_identifier (m : file_monitor) (h : ReachableFresh m) :
    ∀ d ∈ m.directories, watches_with m d.watch_descriptor = 1 := by
  intro d hd
  have hle : watches_with m d.watch_descriptor ≤ 1 :=
    filter_key_length_le_one (fun d => d.watch_descriptor) m.directories
      d.watch_descriptor (reachable_fresh_wds_nodup m h)
  have hpos : 0 < watches_with m d.watch_descriptor := by
    unfold watches_with
    rw [List.length_pos_iff_exists_mem]
    exact ⟨d, List.mem_filter.mpr ⟨hd, by simp⟩⟩
  omega

theorem reachable_fresh_two :
    ReachableFresh two_watches :=
  ReachableFresh.add_paths (empty_monitor 7) _ ["/tmp/a".toList, "/tmp/b".toList] 2
    (fun i => accept_with (i + 1)) 0
    [KCall.add_watch "/tmp/a".toList WATCH_FLAGS, KCall.add_watch "/tmp/b".toList WATCH_FLAGS]
    (ReachableFresh.created (some 7) all_ok ⟨[], []⟩ _ _ rfl) (by decide) (by decide)

/-- C2 (amended) on the registry of `/tmp/a` and `/tmp/b` with the watches `1` and `2`. -/
theorem one_watch_per_identifier_witness :
    ReachableFresh two_watches ∧ watches_with two_watches 2 = 1 :=
  ⟨reachable_fresh_two, one_watch_per_identifier two_watches reachable_fresh_two
    { dir_path := "/tmp/b".toList, watch_descriptor := 2, files := [], file_capacity := 10 }
    (by decide)⟩

/-- C2 as stated fails: `addPaths(["/tmp/a", "/tmp/a/"])` on a created monitor, the kernel
returning the watch `1` for both names of the directory, leaves two entries that hold the
identifier `1`. -/
theorem two_watches_one_identifier :
    file_monitor_add_paths (some (empty_monitor 7))
        (some ["/tmp/a".toList, "/tmp/a/".toList]) 2 (fun _ => accept_with 1)
      = (0, some aliased_monitor,
          [KCall.add_watch "/tmp/a".toList WATCH_FLAGS,
           KCall.add_watch "/tmp/a/".toList WATCH_FLAGS]) ∧
    Reachable aliased_monitor ∧ watches_with aliased_monitor 1 = 2 :=
  ⟨by decide,
    Reachable.add_paths (empty_monitor 7) _ (some ["/tmp/a".toList, "/tmp/a/".toList]) 2
      (fun _ => accept_with 1) 0
      [KCall.add_watch "/tmp/a".toList WATCH_FLAGS,
       KCall.add_watch "/tmp/a/".toList WATCH_FLAGS] (reachable_empty 7) (by decide),
    by decide⟩

/-- C3 (amended). `addPaths`, and in the same way `removePaths`, returns the failure status
`-1` exactly when the monitor handle is absent, the path sequence is absent or its count is
not positive; the monitor is then unchanged and no request is made to the kernel. In every
other case the status is `0`, whatever the environment answers. -/
theorem paths_status (monitor : Option file_monitor) (paths : Option (List CStr))
    (path_count : Int) (env : Nat → AddAnswers) :
    ((file_monitor_add_paths monitor paths path_count env).1 = -1 ↔
        (monitor = none ∨ paths = none ∨ path_count ≤ 0)) ∧
    ((file_monitor_add_paths monitor paths path_count env).1 = -1 →
        (file_monitor_add_paths monitor paths path_count env).2 = (monitor, [])) ∧
    ((file_monitor_add_paths monitor paths path_count env).1 ≠ -1 →
        (file_monitor_add_paths monitor paths path_count env).1 = 0) ∧
    ((file_monitor_remove_paths monitor paths path_count).1 = -1 ↔
        (monitor = none ∨ paths = none ∨ path_count ≤ 0)) ∧
    ((file_monitor_remove_paths monitor paths path_count).1 = -1 →
        (file_monitor_remove_paths monitor paths path_count).2 = (monitor, [])) ∧
    ((file_monitor_remove_paths monitor paths path_count).1 ≠ -1 →
        (file_monitor_remove_paths monitor paths path_count).1 = 0) := by
  unfold file_monitor_add_paths file_monitor_remove_paths
  cases monitor <;> cases paths <;> simp
  by_cases h : path_count ≤ 0 <;> simp [h]

/-- C3 as stated fails: with a path sequence that is present and of count `1`, `addPaths`
and `removePaths` on an absent monitor handle return `-1`. -/
theorem paths_status_absent_monitor :
    (file_monitor_add_paths none (some ["/tmp/a".toList]) 1 (fun _ => accept_with 1)).1 = -1 ∧
    (file_monitor_remove_paths none (some ["/tmp/a".toList]) 1).1 = -1 ∧
    ¬ ((some ["/tmp/a".toList] : Option (List CStr)) = none ∨ (1 : Int) ≤ 0) :=
  ⟨by decide, by decide, by decide⟩

/-- C3 (amended) at a call with a count of `0` on a registry of two watches: the status is
`-1` and the monitor is unchanged. -/
theorem paths_status_witness :
    (file_monitor_add_paths (some two_watches) (some five_paths) 0 second_rejected).1 = -1 ∧
    (file_monitor_add_paths (some two_watches) (some five_paths) 0 second_rejected).2
      = (some two_watches, []) :=
  ⟨by decide,
    (paths_status (some two_watches) (some five_paths) 0 second_rejected).2.1 (by decide)⟩

theorem add_paths_loop_cons_some (m : file_monitor) (p : CStr) (rest : List CStr) (i : Nat)
    (env : Nat → AddAnswers) (d : directory_watch_t) (h : find_directory_watch m p = some d) :
    add_paths_loop m (p :: rest) i env = add_paths_loop m rest (i + 1) env := by
  rw [add_paths_loop]
  simp only [h]

theorem add_paths_loop_cons_none (m : file_monitor) (p : CStr) (rest : List CStr) (i : Nat)
    (env : Nat → AddAnswers) (h : find_directory_watch m p = none) :
    add_paths_loop m (p :: rest) i env =
      ((add_paths_loop (add_directory_watch m p (env i)).2.1 rest (i + 1) env).1,
        (add_directory_watch m p (env i)).2.2 ++
          (add_paths_loop (add_directory_watch m p (env i)).2.1 rest (i + 1) env).2) := by
  rw [add_paths_loop]
  simp only [h]

theorem add_paths_loop_append (ps qs : List CStr) (m : file_monitor) (i : Nat)
    (env : Nat → AddAnswers) :
    add_paths_loop m (ps ++ qs) i env =
      ((add_paths_loop (add_paths_loop m ps i env).1 qs (i + ps.length) env).1,
        (add_paths_loop m ps i env).2 ++
          (add_paths_loop (add_paths_loop m ps i env).1 qs (i + ps.length) env).2) := by
  induction ps generalizing m i with
  | nil => simp [add_paths_loop]
  | cons p rest ih =>
    simp only [List.cons_append, List.length_cons]
    have e : i + (rest.length + 1) = i + 1 + rest.length := by omega
    cases hf : find_directory_watch m p with
    | some d =>
      rw [add_paths_loop_cons_some _ _ _ _ _ d hf, add_paths_loop_cons_some _ _ _ _ _ d hf,
        ih, e]
    | none =>
      rw [add_paths_loop_cons_none _ _ _ _ _ hf, add_paths_loop_cons_none _ _ _ _ _ hf,
        ih, e]
      simp only [List.append_assoc]

theorem add_paths_loop_one (m : file_monitor) (p : CStr) (i : Nat) (env : Nat → AddAnswers) :
    (add_paths_loop m [p] i env).1.directories =
      if watches_for m p = 0 ∧ accepted m (env i) = true then
        m.directories ++ [{ dir_path := p, watch_descriptor := (env i).wd, files := [],
                            file_capacity := 10 }]
      else m.directories := by
  cases hf : find_directory_watch m p with
  | some d =>
    have h0 : watches_for m p ≠ 0 := by
      intro e
      rw [(find_eq_none_iff_watches_for m p).mpr e] at hf
      cases hf
    rw [add_paths_loop_cons_some _ _ _ _ _ d hf]
    simp [add_paths_loop, h0]
  | none =>
    have h0 := (find_eq_none_iff_watches_for m p).mp hf
    rw [add_paths_loop_cons_none _ _ _ _ _ hf]
    simp only [add_paths_loop, add_directory_watch_directories, h0, true_and]

theorem watch_added_at_append (m : file_monitor) (qs : List CStr) (p : CStr)
    (env : Nat → AddAnswers) (i : Nat) (hi : i < qs.length) :
    watch_added_at m (qs ++ [p]) env i = watch_added_at m qs env i := by
  unfold watch_added_at reached
  rw [List.getElem?_append_left hi, List.take_append_of_le_length (Nat.le_of_lt hi)]

theorem add_paths_loop_directories (ps : List CStr) (m : file_monitor)
    (env : Nat → AddAnswers) :
    (add_paths_loop m ps 0 env).1.directories = m.directories ++ watches_added m ps env := by
  induction ps using List.reverseRecOn with
  | nil => simp [add_paths_loop, watches_added]
  | append_singleton qs p ih =>
    rw [add_paths_loop_append]
    simp only [Nat.zero_add]
    rw [add_paths_loop_one, watches_added, List.length_append, List.length_singleton,
      List.range_succ, List.filterMap_append]
    have e1 : List.filterMap (watch_added_at m (qs ++ [p]) env) (List.range qs.length)
        = watches_added m qs env := by
      unfold watches_added
      apply List.filterMap_congr
      intro i hi
      exact watch_added_at_append m qs p env i (List.mem_range.mp hi)
    rw [e1]
    have e2 : reached m (qs ++ [p]) env qs.length = (add_paths_loop m qs 0 env).1 := by
      unfold reached
      rw [List.take_left]
    simp only [List.filterMap_cons, List.filterMap_nil, watch_added_at,
      List.getElem?_concat_length, e2]
    split <;> simp [ih]

theorem take_succ_of_getElem (ps : List CStr) (i : Nat) (p : CStr) (h : ps[i]? = some p) :
    ps.take (i + 1) = ps.take i ++ [p] := by
  rw [List.take_succ, h]
  rfl

theorem length_take_of_getElem (ps : List CStr) (i : Nat) (p : CStr) (h : ps[i]? = some p) :
    (ps.take i).length = i := by
  have hi : i < ps.length := by
    rcases Nat.lt_or_ge i ps.length with h1 | h1
    · exact h1
    · rw [List.getElem?_eq_none h1] at h
      cases h
  rw [List.length_take]
  omega

theorem add_directory_watch_watches_for (m : file_monitor) (q p : CStr) (e : AddAnswers)
    (h : watches_for m p ≠ 0) : watches_for (add_directory_watch m q e).2.1 p ≠ 0 := by
  unfold watches_for at *
  rw [add_directory_watch_directories]
  split
  · rw [List.filter_append, List.length_append]
    omega
  · exact h

theorem add_directory_watch_calls (m : file_monitor) (q : CStr) (e : AddAnswers) (c : KCall)
    (h : c ∈ (add_directory_watch m q e).2.2) :
    c = KCall.add_watch q WATCH_FLAGS ∨ c = KCall.rm_watch e.wd := by
  unfold add_directory_watch at h
  by_cases h1 : m.dir_count < m.dir_capacity <;> by_cases h2 : e.wd = -1 <;>
    cases h3 : e.realloc_ok <;> cases h4 : e.malloc_dir_watch_ok <;>
    cases h5 : e.strdup_ok <;> cases h6 : e.malloc_files_ok <;>
    simp [h1, h2, h3, h4, h5, h6, not_le.mpr, not_lt.mp] at h <;> tauto

theorem add_paths_loop_no_request (ps : List CStr) (m : file_monitor) (i : Nat)
    (env : Nat → AddAnswers) (p : CStr) (flags : Nat) (h : watches_for m p ≠ 0) :
    KCall.add_watch p flags ∉ (add_paths_loop m ps i env).2 := by
  induction ps generalizing m i with
  | nil => simp [add_paths_loop]
  | cons q rest ih =>
    cases hf : find_directory_watch m q with
    | some d =>
      rw [add_paths_loop_cons_some _ _ _ _ _ d hf]
      exact ih m (i + 1) h
    | none =>
      rw [add_paths_loop_cons_none _ _ _ _ _ hf, List.mem_append, not_or]
      refine ⟨?_, ih _ (i + 1) (add_directory_watch_watches_for m q p (env i) h)⟩
      intro hc
      rcases add_directory_watch_calls m q (env i) _ hc with e | e
      · injection e with e1 _
        subst e1
        exact h ((find_eq_none_iff_watches_for m p).mp hf)
      · cases e

/-- C4. For every registry state and every non-empty path sequence `ps`, `addPaths(ps)`
reports success and leaves the prior entries, unchanged and in their order, followed by one
new directory watch for each path of `ps` that was not registered when the loop reached it
and that the kernel and the allocator accepted, in the order of `ps`. A path that is
registered when it is reached changes neither the monitor nor the requests made; a path
registered before the call is never requested from the kernel; a path the kernel rejects
adds no entry, and the paths after it are processed all the same. -/
theorem add_paths_appends (m : file_monitor) (ps : List CStr) (env : Nat → AddAnswers)
    (hps : ps ≠ []) :
    (file_monitor_add_paths (some m) (some ps) ps.length env).1 = 0 ∧
    (file_monitor_add_paths (some m) (some ps) ps.length env).2.1.map
        (fun m2 => m2.directories) = some (m.directories ++ watches_added m ps env) ∧
    (∀ (i : Nat) (p : CStr), ps[i]? = some p → watches_for (reached m ps env i) p ≠ 0 →
        add_paths_loop m (ps.take (i + 1)) 0 env = add_paths_loop m (ps.take i) 0 env) ∧
    (∀ p : CStr, watches_for m p ≠ 0 → KCall.add_watch p WATCH_FLAGS ∉
        (file_monitor_add_paths (some m) (some ps) ps.length env).2.2) ∧
    (∀ (i : Nat) (p : CStr), ps[i]? = some p → (env i).wd = -1 →
        (reached m ps env (i + 1)).directories = (reached m ps env i).directories) := by
  have hlen : ¬ ((ps.length : Int) ≤ 0) := by
    have : 0 < ps.length := List.length_pos.mpr hps
    omega
  have hcall : file_monitor_add_paths (some m) (some ps) ps.length env
      = (0, some (add_paths_loop m ps 0 env).1, (add_paths_loop m ps 0 env).2) := by
    unfold file_monitor_add_paths
    simp only [hlen, if_false, Int.toNat_ofNat, List.take_length]
  rw [hcall]
  refine ⟨rfl, ?_, ?_, ?_, ?_⟩
  · simp only [Option.map_some', add_paths_loop_directories]
  · intro i p hp hreg
    rw [take_succ_of_getElem ps i p hp, add_paths_loop_append]
    have hf : find_directory_watch (add_paths_loop m (ps.take i) 0 env).1 p ≠ none := by
      intro e
      exact hreg ((find_eq_none_iff_watches_for _ p).mp e)
    obtain ⟨d, hd⟩ := Option.ne_none_iff_exists'.mp hf
    rw [add_paths_loop_cons_some _ _ _ _ _ d hd]
    simp [add_paths_loop]
  · intro p hreg
    exact add_paths_loop_no_request ps m 0 env p WATCH_FLAGS hreg
  · intro i p hp hrej
    unfold reached
    rw [take_succ_of_getElem ps i p hp, add_paths_loop_append, add_paths_loop_one,
      Nat.zero_add, length_take_of_getElem ps i p hp]
    have hacc : accepted (add_paths_loop m (ps.take i) 0 env).1 (env i) = false := by
      simp [accepted, hrej]
    simp [hacc]

/-- C4 on the registry of `/tmp/a` and `/tmp/b`, for `five_paths`: the watches of `/tmp/c`
and `/tmp/d` are appended. -/
theorem add_paths_appends_witness :
    five_paths ≠ [] ∧
    (file_monitor_add_paths (some two_watches) (some five_paths) five_paths.length
        second_rejected).2.1.map (fun m2 => m2.directories)
      = some (two_watches.directories ++ watches_added two_watches five_paths second_rejected) ∧
    watches_added two_watches five_paths second_rejected
      = [{ dir_path := "/tmp/c".toList, watch_descriptor := 3, files := [],
           file_capacity := 10 },
         { dir_path := "/tmp/d".toList, watch_descriptor := 6, files := [],
           file_capacity := 10 }] :=
  ⟨by decide, (add_paths_appends two_watches five_paths second_rejected (by decide)).2.1,
    by decide⟩

theorem find_dir_index_absent (dirs : List directory_watch_t) (p : CStr) (j : Nat)
    (h : p ∉ dirs.map (fun d => d.dir_path)) : find_dir_index dirs p j = -1 := by
  induction dirs generalizing j with
  | nil => rfl
  | cons d rest ih =>
    rw [List.map_cons, List.mem_cons, not_or] at h
    unfold find_dir_index
    rw [if_neg (fun e => h.1 e.symm)]
    exact ih (j + 1) h.2

theorem find_dir_index_present (dirs : List directory_watch_t) (p : CStr) (j : Nat)
    (hn : (dirs.map (fun d => d.dir_path)).Nodup) (h : p ∈ dirs.map (fun d => d.dir_path)) :
    ∃ k : Nat, find_dir_index dirs p j = ((j + k : Nat) : Int) ∧
      dirs.eraseIdx k = dirs.filter (fun d => decide (d.dir_path ≠ p)) := by
  induction dirs generalizing j with
  | nil => simp at h
  | cons d rest ih =>
    rw [List.map_cons, List.nodup_cons] at hn
    unfold find_dir_index
    by_cases e : d.dir_path = p
    · refine ⟨0, by simp [e], ?_⟩
      rw [List.eraseIdx_cons_zero, List.filter_cons_of_neg (by simpa using e)]
      symm
      rw [List.filter_eq_self]
      intro a ha
      simp only [ne_eq, decide_not, Bool.not_eq_eq_eq_not, Bool.not_true, decide_eq_false_iff_not]
      intro ea
      exact hn.1 (e ▸ ea ▸ List.mem_map_of_mem _ ha)
    · rw [List.map_cons, List.mem_cons] at h
      have h2 : p ∈ rest.map (fun d => d.dir_path) := by
        rcases h with h | h
        · exact absurd h.symm e
        · exact h
      obtain ⟨k, hk, hk2⟩ := ih (j + 1) hn.2 h2
      refine ⟨k + 1, ?_, ?_⟩
      · rw [if_neg e, hk]
        congr 1
        omega
      · rw [List.eraseIdx_cons_succ, List.filter_cons_of_pos (by simpa using e), hk2]

theorem remove_paths_loop_cons (m : file_monitor) (p : CStr) (rest : List CStr)
    (hn : paths_nodup m) :
    (remove_paths_loop m (p :: rest)).1 =
      (remove_paths_loop
        { m with directories := m.directories.filter (fun d => decide (d.dir_path ≠ p)) }
        rest).1 := by
  rw [remove_paths_loop]
  by_cases h : p ∈ m.directories.map (fun d => d.dir_path)
  · obtain ⟨k, hk, hk2⟩ := find_dir_index_present m.directories p 0 hn h
    have hge : find_dir_index m.directories p 0 ≥ 0 := by rw [hk]; omega
    have hk3 : (find_dir_index m.directories p 0).toNat = k := by rw [hk]; simp
    simp only [hge, if_true, hk3, hk2]
  · have hk := find_dir_index_absent m.directories p 0 h
    have hf : m.directories.filter (fun d => decide (d.dir_path ≠ p)) = m.directories := by
      rw [List.filter_eq_self]
      intro a ha
      simp only [ne_eq, decide_not, Bool.not_eq_eq_eq_not, Bool.not_true,
        decide_eq_false_iff_not]
      intro ea
      exact h (ea ▸ List.mem_map_of_mem _ ha)
    rw [hf]
    simp [hk]

theorem remove_paths_loop_filter (ps : List CStr) (m : file_monitor) (hn : paths_nodup m) :
    (remove_paths_loop m ps).1 =
      { m with directories := m.directories.filter (fun d => decide (d.dir_path ∉ ps)) } := by
  induction ps generalizing m with
  | nil => simp [remove_paths_loop]
  | cons p rest ih =>
    rw [remove_paths_loop_cons m p rest hn, ih]
    · simp only [List.filter_filter, List.mem_cons, not_or]
      congr 1
      apply List.filter_congr
      intro d _
      by_cases h1 : d.dir_path = p <;> by_cases h2 : d.dir_path ∈ rest <;> simp [h1, h2]
    · unfold paths_nodup at *
      exact hn.sublist (List.Sublist.map _ (List.filter_sublist _))

theorem reachable_two_watches : Reachable two_watches :=
  Reachable.add_paths (empty_monitor 7) _ (some ["/tmp/a".toList, "/tmp/b".toList]) 2
    (fun i => accept_with (i + 1)) 0
    [KCall.add_watch "/tmp/a".toList WATCH_FLAGS, KCall.add_watch "/tmp/b".toList WATCH_FLAGS]
    (reachable_empty 7) (by decide)

/-- C5. For every reachable registry state and every non-empty path sequence `ps`,
`removePaths(ps)` returns success and leaves the monitor with exactly the entries whose
path occurs in `ps` deleted, the others kept as they were and in their order: afterwards
no path of `ps` is found, and the count has dropped by the number of entries deleted.
`removePaths([d])` for an unregistered `d` returns success, changes nothing and makes no
request to the kernel. -/
theorem remove_paths_deletes (m : file_monitor) (h : Reachable m) (ps : List CStr)
    (hps : ps ≠ []) :
    (file_monitor_remove_paths (some m) (some ps) ps.length).1 = 0 ∧
    (file_monitor_remove_paths (some m) (some ps) ps.length).2.1 =
      some { m with
        directories := m.directories.filter (fun d => decide (d.dir_path ∉ ps)) } ∧
    (∀ m2 : file_monitor,
      (file_monitor_remove_paths (some m) (some ps) ps.length).2.1 = some m2 →
        (∀ p ∈ ps, find_directory_watch m2 p = none) ∧
        m2.dir_count = m.dir_count -
          (m.directories.filter (fun d => decide (d.dir_path ∈ ps))).length) ∧
    (∀ d : CStr, find_directory_watch m d = none →
      file_monitor_remove_paths (some m) (some [d]) 1 = (0, some m, [])) := by
  have hn := reachable_paths_nodup m h
  have hlen : ¬ ((ps.length : Int) ≤ 0) := by
    have : 0 < ps.length := List.length_pos.mpr hps
    omega
  have hcall : file_monitor_remove_paths (some m) (some ps) ps.length
      = (0, some (remove_paths_loop m ps).1, (remove_paths_loop m ps).2) := by
    unfold file_monitor_remove_paths
    simp only [hlen, if_false, Int.toNat_ofNat, List.take_length]
  rw [hcall, remove_paths_loop_filter ps m hn]
  refine ⟨rfl, rfl, ?_, ?_⟩
  · intro m2 hm2
    simp only [Option.some.injEq] at hm2
    subst hm2
    constructor
    · intro p hp
      unfold find_directory_watch
      rw [find_from_eq_none]
      intro hmem
      obtain ⟨d, hd, hdp⟩ := List.mem_map.mp hmem
      have := (List.mem_filter.mp hd).2
      simp only [decide_not, Bool.not_eq_eq_eq_not, Bool.not_true,
        decide_eq_false_iff_not] at this
      exact this (hdp ▸ hp)
    · unfold file_monitor.dir_count
      have e := @List.length_eq_length_filter_add _ m.directories
        (fun d => decide (d.dir_path ∈ ps))
      simp only [decide_not] at *
      omega
  · intro d hd
    have habs : d ∉ m.directories.map (fun d => d.dir_path) :=
      (find_from_eq_none m.directories d).mp hd
    have hk := find_dir_index_absent m.directories d 0 habs
    unfold file_monitor_remove_paths
    simp [remove_paths_loop, hk]

/-- C5 on the registry of `/tmp/a` and `/tmp/b`, for the paths `/tmp/b`, `/tmp/x` and
`/tmp/b` again: the entry of `/tmp/a` is what is left. -/
theorem remove_paths_deletes_witness :
    Reachable two_watches ∧ ["/tmp/b".toList, "/tmp/x".toList, "/tmp/b".toList] ≠ [] ∧
    (file_monitor_remove_paths (some two_watches)
        (some ["/tmp/b".toList, "/tmp/x".toList, "/tmp/b".toList]) 3).2.1 =
      some { two_watches with
        directories := two_watches.directories.filter
          (fun d => decide (d.dir_path ∉
            ["/tmp/b".toList, "/tmp/x".toList, "/tmp/b".toList])) } ∧
    file_monitor_remove_paths (some two_watches)
        (some ["/tmp/b".toList, "/tmp/x".toList, "/tmp/b".toList]) 3 =
      (0, some { directories :=
                   [{ dir_path := "/tmp/a".toList, watch_descriptor := 1, files := [],
                      file_capacity := 10 }],
                 dir_capacity := 10, callback := 7 },
        [KCall.rm_watch 2]) :=
  ⟨reachable_two_watches, by decide,
    (remove_paths_deletes two_watches reachable_two_watches
      ["/tmp/b".toList, "/tmp/x".toList, "/tmp/b".toList] (by decide)).2.1, by decide⟩

/-! ## Lemmas on the event loop -/

theorem buffer_len_append (xs ys : List inotify_event) :
    buffer_len (xs ++ ys) = buffer_len xs + buffer_len ys := by
  induction xs with
  | nil => simp [buffer_len]
  | cons x rest ih =>
    rw [List.cons_append, buffer_len, buffer_len, ih]
    omega

theorem event_at_buffer_len (done : List inotify_event) (ev : inotify_event)
    (rest : List inotify_event) : event_at (done ++ ev :: rest) (buffer_len done) = some ev := by
  induction done with
  | nil => simp [event_at, buffer_len]
  | cons d done ih =>
    simp only [List.cons_append, buffer_len]
    unfold event_at
    have h1 : ¬ (sizeof_inotify_event + d.len + buffer_len done = 0) := by
      unfold sizeof_inotify_event; omega
    have h2 : ¬ (sizeof_inotify_event + d.len + buffer_len done < sizeof_inotify_event + d.len) := by
      omega
    rw [if_neg h1, if_neg h2]
    have h3 : sizeof_inotify_event + d.len + buffer_len done - (sizeof_inotify_event + d.len)
        = buffer_len done := by omega
    rw [h3]
    exact ih

theorem length_le_buffer_len (evs : List inotify_event) : evs.length ≤ buffer_len evs := by
  induction evs with
  | nil => simp [buffer_len]
  | cons ev rest ih =>
    simp only [List.length_cons, buffer_len, sizeof_inotify_event]
    omega

theorem dispatch_loop_layout (evs done : List inotify_event) (m : file_monitor) (fuel : Nat)
    (hfuel : evs.length ≤ fuel) :
    dispatch_loop fuel m (done ++ evs) (buffer_len (done ++ evs)) (buffer_len done)
      = (m, (evs.map (dispatch_event m)).flatten) := by
  induction evs generalizing done fuel with
  | nil =>
    cases fuel with
    | zero => simp [dispatch_loop]
    | succ n => simp [dispatch_loop]
  | cons ev rest ih =>
    cases fuel with
    | zero => simp at hfuel
    | succ n =>
      have hlt : buffer_len done < buffer_len (done ++ ev :: rest) := by
        rw [buffer_len_append]
        simp only [buffer_len, sizeof_inotify_event]
        omega
      rw [dispatch_loop, if_pos hlt, event_at_buffer_len]
      have hoff : buffer_len done + sizeof_inotify_event + ev.len = buffer_len (done ++ [ev]) := by
        rw [buffer_len_append]
        simp only [buffer_len]
        omega
      have hbuf : done ++ ev :: rest = (done ++ [ev]) ++ rest := by simp
      simp only [hoff]
      rw [hbuf, ih (done ++ [ev]) n (by simpa using hfuel)]
      simp

theorem process_batch_eq (m : file_monitor) (evs : List inotify_event) :
    process_batch m evs (buffer_len evs) = (m, (evs.map (dispatch_event m)).flatten) := by
  unfold process_batch
  have h := dispatch_loop_layout evs [] m (buffer_len evs) (length_le_buffer_len evs)
  simpa [buffer_len] using h

theorem find_watch_by_wd_eq (dirs : List directory_watch_t) (wd : Int) :
    find_watch_by_wd dirs wd = dirs.find? (fun d => decide (d.watch_descriptor = wd)) := by
  induction dirs with
  | nil => rfl
  | cons d rest ih =>
    unfold find_watch_by_wd
    by_cases h : d.watch_descriptor = wd
    · simp [h]
    · simp [h, ih]

theorem dispatch_event_eq (m : file_monitor) (ev : inotify_event) (h : well_formed ev) :
    dispatch_event m ev = (delivered m ev).toList := by
  unfold dispatch_event delivered
  rw [find_watch_by_wd_eq]
  cases hf : m.directories.find? (fun d => decide (d.watch_descriptor = ev.wd)) with
  | none => rfl
  | some d =>
    by_cases hl : ev.len = 0
    · simp [hl]
    · have : ev.len > 0 := Nat.pos_of_ne_zero hl
      have hlt : ev.mask < 4294967296 := h.1
      simp [hl, this, hlt]

theorem flatten_map_toList {α β : Type} (f : α → Option β) (l : List α) :
    (l.map (fun a => (f a).toList)).flatten = l.filterMap f := by
  induction l with
  | nil => rfl
  | cons a rest ih =>
    simp only [List.map_cons, List.flatten_cons, List.filterMap_cons, ih]
    cases f a <;> rfl

/-- C6. For every registry state and every batch of well-formed records read in one
cycle, the calls of the observer made while the batch is processed are, in the order of
the records in the buffer, one call per record that has a name and whose identifier
resolves to a registered directory watch, with the mask of that record; the other records
yield no call, and the monitor is the same after the batch. -/
theorem batch_dispatch (m : file_monitor) (evs : List inotify_event)
    (h : ∀ ev ∈ evs, well_formed ev) :
    process_batch m evs (buffer_len evs) = (m, evs.filterMap (delivered m)) ∧
    (∀ ev : inotify_event, delivered m ev = none ↔
      (ev.len = 0 ∨ ∀ d ∈ m.directories, d.watch_descriptor ≠ ev.wd)) ∧
    (∀ (ev : inotify_event) (call : Invocation), delivered m ev = some call →
      call.event_type = ev.mask ∧ call.callback = m.callback) := by
  refine ⟨?_, ?_, ?_⟩
  · rw [process_batch_eq, ← flatten_map_toList]
    congr 2
    apply List.map_congr_left
    intro ev hev
    exact dispatch_event_eq m ev (h ev hev)
  · intro ev
    unfold delivered
    cases hf : m.directories.find? (fun d => decide (d.watch_descriptor = ev.wd)) with
    | none =>
      simp only [true_iff]
      right
      intro d hd
      have := List.find?_eq_none.mp hf d hd
      simpa using this
    | some d =>
      have hd := List.find?_some hf
      have hmem := List.mem_of_find?_eq_some hf
      simp only [decide_eq_true_eq] at hd
      by_cases hl : ev.len = 0
      · simp [hl]
      · simp only [hl, if_false, false_or]
        constructor
        · intro e; cases e
        · intro e; exact absurd hd (e d hmem)
  · intro ev call hc
    unfold delivered at hc
    cases hf : m.directories.find? (fun d => decide (d.watch_descriptor = ev.wd)) with
    | none => simp [hf] at hc
    | some d =>
      simp only [hf] at hc
      split_ifs at hc
      simp only [Option.some.injEq] at hc
      subst hc
      exact ⟨rfl, rfl⟩

/-- C6 on `example_batch`: three calls, in the order of the records. -/
theorem batch_dispatch_witness :
    (∀ ev ∈ example_batch, well_formed ev) ∧
    process_batch two_watches example_batch (buffer_len example_batch)
      = (two_watches, example_batch.filterMap (delivered two_watches)) ∧
    example_batch.filterMap (delivered two_watches)
      = [{ callback := 7, path := "/tmp/a/a.txt".toList, event_type := IN_CREATE },
         { callback := 7, path := "/tmp/b/sub".toList, event_type := IN_CREATE ||| IN_ISDIR },
         { callback := 7, path := "/tmp/a/a.txt".toList, event_type := IN_CREATE }] :=
  ⟨by decide, (batch_dispatch two_watches example_batch (by decide)).1, by decide⟩

theorem mem_process_batch (m : file_monitor) (evs : List inotify_event) (call : Invocation)
    (h : call ∈ (process_batch m evs (buffer_len evs)).2) :
    ∃ ev ∈ evs, ∃ d, find_watch_by_wd m.directories ev.wd = some d ∧ ev.len > 0 ∧
      call = { callback := m.callback, path := snprintf_path PATH_MAX d.dir_path ev.name,
               event_type := ev.mask % 2 ^ 32 } := by
  rw [process_batch_eq] at h
  simp only [List.mem_flatten, List.mem_map] at h
  obtain ⟨l, ⟨ev, hev, rfl⟩, hc⟩ := h
  refine ⟨ev, hev, ?_⟩
  unfold dispatch_event at hc
  cases hf : find_watch_by_wd m.directories ev.wd with
  | none => simp [hf] at hc
  | some d =>
    simp only [hf] at hc
    split_ifs at hc with hl
    · simp only [List.mem_singleton] at hc
      exact ⟨d, rfl, hl, hc⟩
    · simp at hc

/-- C7 (amended). For every event delivered to the observer, the path argument is
`directoryPath + "/" + name` cut to its first `PATH_MAX - 1` bytes, where `directoryPath`
is the path of the directory watch the identifier of the record resolved to and `name` is
the file name of the record; it equals `directoryPath + "/" + name` whenever that text is
shorter than `PATH_MAX` bytes. -/
theorem delivered_path (m : file_monitor) (evs : List inotify_event) (call : Invocation)
    (h : call ∈ (process_batch m evs (buffer_len evs)).2) :
    ∃ ev ∈ evs, ∃ d, find_watch_by_wd m.directories ev.wd = some d ∧
      call.path = (d.dir_path ++ ['/'] ++ ev.name).take (PATH_MAX - 1) ∧
      (d.dir_path.length + 1 + ev.name.length < PATH_MAX →
        call.path = d.dir_path ++ ['/'] ++ ev.name) := by
  obtain ⟨ev, hev, d, hd, _, hc⟩ := mem_process_batch m evs call h
  refine ⟨ev, hev, d, hd, ?_, ?_⟩
  · rw [hc]; rfl
  · intro hlen
    rw [hc]
    simp only [snprintf_path]
    apply List.take_of_length_le
    simp only [List.length_append, List.length_singleton]
    omega

/-- C7 (amended) for the call made for the directory created in `/tmp/b`. -/
theorem delivered_path_witness :
    ∃ ev ∈ example_batch, ∃ d, find_watch_by_wd two_watches.directories ev.wd = some d ∧
      "/tmp/b/sub".toList = (d.dir_path ++ ['/'] ++ ev.name).take (PATH_MAX - 1) ∧
      (d.dir_path.length + 1 + ev.name.length < PATH_MAX →
        "/tmp/b/sub".toList = d.dir_path ++ ['/'] ++ ev.name) :=
  delivered_path two_watches example_batch
    { callback := 7, path := "/tmp/b/sub".toList, event_type := IN_CREATE ||| IN_ISDIR }
    (by decide)

theorem deep_dir_length : deep_dir.length = 4000 := by
  simp only [deep_dir, List.length_flatten, List.map_replicate, List.length_cons,
    List.length_replicate, List.sum_replicate, smul_eq_mul]

theorem long_name_length : long_name.length = 255 := by
  simp only [long_name, List.length_replicate]

/-- C7 as stated fails: for the directory `deep_dir` of 4000 bytes, registered under the
watch `1`, and a record for a file of 255 bytes in it, the observer is called once, with a
path of 4095 bytes, and `directoryPath + "/" + name` has 4256 bytes. -/
theorem long_path_truncated :
    find_watch_by_wd deep_monitor.directories deep_event.wd
      = some { dir_path := deep_dir, watch_descriptor := 1, files := [],
               file_capacity := 10 } ∧
    (process_batch deep_monitor [deep_event] (buffer_len [deep_event])).2
      = [{ callback := 7, path := snprintf_path PATH_MAX deep_dir long_name,
           event_type := IN_CREATE }] ∧
    (snprintf_path PATH_MAX deep_dir long_name).length = 4095 ∧
    (deep_dir ++ ['/'] ++ long_name).length = 4256 ∧
    snprintf_path PATH_MAX deep_dir long_name ≠ deep_dir ++ ['/'] ++ long_name := by
  have h1 : (snprintf_path PATH_MAX deep_dir long_name).length = 4095 := by
    simp only [snprintf_path, PATH_MAX, List.length_take, List.length_append,
      List.length_singleton, deep_dir_length, long_name_length]
    decide
  have h2 : (deep_dir ++ ['/'] ++ long_name).length = 4256 := by
    simp only [List.length_append, List.length_singleton, deep_dir_length, long_name_length]
  refine ⟨?_, ?_, h1, h2, ?_⟩
  · simp [find_watch_by_wd, deep_monitor, deep_event]
  · rw [process_batch_eq]
    simp [dispatch_event, find_watch_by_wd, deep_monitor, deep_event, IN_CREATE]
  · intro e
    rw [e, h2] at h1
    omega

/-- C8 (amended). For every event delivered to the observer from a batch of well-formed
records, the event-kind bitmask passed to the callback is the mask of the record,
unchanged: it has no bit outside `WATCH_FLAGS` whenever the mask of the record has none. -/
theorem delivered_mask (m : file_monitor) (evs : List inotify_event)
    (hw : ∀ ev ∈ evs, well_formed ev) (call : Invocation)
    (h : call ∈ (process_batch m evs (buffer_len evs)).2) :
    ∃ ev ∈ evs, call.event_type = ev.mask ∧
      (ev.mask &&& WATCH_FLAGS = ev.mask → call.event_type &&& WATCH_FLAGS = call.event_type) := by
  obtain ⟨ev, hev, d, _, _, hc⟩ := mem_process_batch m evs call h
  have hm : call.event_type = ev.mask := by
    rw [hc]
    exact Nat.mod_eq_of_lt (hw ev hev).1
  refine ⟨ev, hev, hm, ?_⟩
  intro hb
  rw [hm]
  exact hb

/-- C8 (amended) for the call made for the file created in `/tmp/a`. -/
theorem delivered_mask_witness :
    (∀ ev ∈ example_batch, well_formed ev) ∧
    ∃ ev ∈ example_batch, IN_CREATE = ev.mask ∧
      (ev.mask &&& WATCH_FLAGS = ev.mask → IN_CREATE &&& WATCH_FLAGS = IN_CREATE) :=
  ⟨by decide,
    delivered_mask two_watches example_batch (by decide)
      { callback := 7, path := "/tmp/a/a.txt".toList, event_type := IN_CREATE } (by decide)⟩

/-- C8 as stated fails: for a directory created in the watched directory `/tmp/b` the
kernel sets `IN_ISDIR` in the mask of the record, and the observer is called with that
bit, which is outside `WATCH_FLAGS`. -/
theorem directory_bit_delivered :
    well_formed created_subdirectory ∧
    (process_batch two_watches [created_subdirectory] (buffer_len [created_subdirectory])).2
      = [{ callback := 7, path := "/tmp/b/sub".toList,
           event_type := IN_CREATE ||| IN_ISDIR }] ∧
    (IN_CREATE ||| IN_ISDIR) &&& WATCH_FLAGS ≠ IN_CREATE ||| IN_ISDIR :=
  ⟨by decide, by decide, by decide⟩

theorem watch_thread_func_stopped (fuel : Nat) (env : List Wakeup) :
    watch_thread_func fuel LoopState.STOPPED env = (LoopState.STOPPED, []) := by
  cases fuel <;> simp [watch_thread_func, loop_step]

theorem loop_step_shutdown (w : Wakeup) (rest : List Wakeup) (h : w.shutdown_ready = true) :
    loop_step LoopState.WAITING (w :: rest) = some (LoopState.STOPPED, [], rest) := by
  unfold loop_step
  by_cases h1 : w.select_result = -1 <;> simp [h1, h]

theorem actions_until_shutdown (fuel : Nat) (s : LoopState) (pre : List Wakeup) (w : Wakeup)
    (rest : List Wakeup) (h : w.shutdown_ready = true) :
    (watch_thread_func fuel s (pre ++ w :: rest)).2 = (watch_thread_func fuel s pre).2 := by
  induction fuel generalizing s pre with
  | zero => simp [watch_thread_func]
  | succ n ih =>
    cases s with
    | STOPPED => simp [watch_thread_func, loop_step]
    | PROCESSING m buffer len =>
      simp only [watch_thread_func, loop_step]
      rw [ih]
    | WAITING =>
      cases pre with
      | nil =>
        simp only [List.nil_append, watch_thread_func, loop_step_shutdown w rest h,
          watch_thread_func_stopped]
        simp [loop_step]
      | cons p pre =>
        simp only [List.cons_append, watch_thread_func, loop_step]
        split_ifs <;> simp [watch_thread_func_stopped, ih]

/-- C9. When `select` returns with the shutdown pipe ready, the thread goes from WAITING to
STOPPED without reading the inotify descriptor and without calling the observer, also when
the inotify descriptor is ready as well. STOPPED has no step, and a thread in STOPPED does
nothing more; so the actions of a whole run are those made before that wake-up, whatever
the wake-up carries and whatever comes after it. -/
theorem shutdown_takes_precedence (w : Wakeup) (rest : List Wakeup)
    (h : w.shutdown_ready = true) :
    loop_step LoopState.WAITING (w :: rest) = some (LoopState.STOPPED, [], rest) ∧
    (∀ env : List Wakeup, loop_step LoopState.STOPPED env = none) ∧
    (∀ (fuel : Nat) (env : List Wakeup),
      watch_thread_func fuel LoopState.STOPPED env = (LoopState.STOPPED, [])) ∧
    (∀ fuel : Nat,
      watch_thread_func (fuel + 1) LoopState.WAITING (w :: rest) = (LoopState.STOPPED, [])) ∧
    (∀ (fuel : Nat) (s : LoopState) (pre : List Wakeup),
      (watch_thread_func fuel s (pre ++ w :: rest)).2 = (watch_thread_func fuel s pre).2) := by
  refine ⟨loop_step_shutdown w rest h, fun _ => rfl, watch_thread_func_stopped, ?_,
    fun fuel s pre => actions_until_shutdown fuel s pre w rest h⟩
  intro fuel
  simp [watch_thread_func, loop_step_shutdown w rest h, watch_thread_func_stopped]

/-- C9 at a wake-up with both descriptors ready: the batch read before it is dispatched,
nothing is read or dispatched from it on. -/
theorem shutdown_takes_precedence_witness :
    both_ready.shutdown_ready = true ∧ both_ready.inotify_ready = true ∧
    loop_step LoopState.WAITING [both_ready, data_ready]
      = some (LoopState.STOPPED, [], [data_ready]) ∧
    watch_thread_func 9 LoopState.WAITING [data_ready, both_ready, data_ready]
      = (LoopState.STOPPED,
          [LoopAction.read,
           LoopAction.invoke
             { callback := 7, path := "/tmp/a/a.txt".toList, event_type := IN_CREATE }]) :=
  ⟨rfl, rfl, (shutdown_takes_precedence both_ready [data_ready] rfl).1, by decide⟩

/-- C10. `file_monitor_new` returns no monitor when the callback is absent, and then
acquires nothing; it returns no monitor when one of its steps fails. Whenever it returns no
monitor, the resources held are those held before the call, every resource it acquired was
released once and none was released that it did not hold, and the thread was not started.
When the callback is present and no step fails, the monitor returned has an empty registry
of capacity 10 and the given callback. -/
theorem create_unwinds (callback : Option file_change_callback) (env : NewAnswers)
    (held : List Resource) :
    (callback = none →
      file_monitor_new callback env ⟨held, []⟩ = (none, ⟨held, []⟩)) ∧
    (step_fails env → (file_monitor_new callback env ⟨held, []⟩).1 = none) ∧
    ((file_monitor_new callback env ⟨held, []⟩).1 = none →
      (file_monitor_new callback env ⟨held, []⟩).2.held = held ∧
      outstanding (file_monitor_new callback env ⟨held, []⟩).2.log [] = some [] ∧
      ResOp.acquire Resource.watch_thread ∉
        (file_monitor_new callback env ⟨held, []⟩).2.log) ∧
    (∀ cb : file_change_callback, callback = some cb → ¬ step_fails env →
      (file_monitor_new callback env ⟨held, []⟩).1
        = some { directories := [], dir_capacity := 10, callback := cb } ∧
      ((file_monitor_new callback env ⟨held, []⟩).1.map (fun m => m.dir_count)) = some 0) := by
  cases callback with
  | none => simp [file_monitor_new, outstanding]
  | some cb =>
    unfold step_fails
    cases h0 : env.malloc_monitor_ok <;> by_cases h1 : env.inotify_init = -1 <;>
      by_cases h2 : env.pipe = -1 <;> by_cases h3 : env.mutex_init = 0 <;>
      cases h4 : env.malloc_directories_ok <;> by_cases h5 : env.pthread_create = 0 <;>
      simp [file_monitor_new, Held.acquire, Held.release, outstanding, file_monitor.dir_count,
        h0, h1, h2, h3, h4, h5]

/-- C10 when the thread cannot be started: no monitor is returned and the lock that was
held before the call is all that is held after it. -/
theorem create_unwinds_witness :
    step_fails no_thread ∧
    (file_monitor_new (some 7) no_thread ⟨[Resource.lock], []⟩).1 = none ∧
    (file_monitor_new (some 7) no_thread ⟨[Resource.lock], []⟩).2.held = [Resource.lock] :=
  ⟨by decide,
    (create_unwinds (some 7) no_thread [Resource.lock]).2.1 (by decide),
    ((create_unwinds (some 7) no_thread [Resource.lock]).2.2.1
      ((create_unwinds (some 7) no_thread [Resource.lock]).2.1 (by decide))).1⟩

end FileMonitor
